import Mathlib

/-
Verification of the hardware-monitor sampler core
(src/src-tauri/src/commands/hardware.rs) against its design spec.

Shallow embedding conventions:
  * `f32`/`f64` sample values are modelled as exact rationals (ℚ); the
    rounding of IEEE arithmetic on finite values is not modelled, but every
    concrete input used below is exactly representable and exactly computed
    in the corresponding IEEE format.
  * IEEE special values (NaN, ±infinity) that arise in `get_memory_usage`
    from division by zero are modelled explicitly by the `F64` sum type,
    together with Rust's saturating `as i32` cast semantics.
  * `VecDeque<f32>` is modelled as `List ℚ`, front = head, back = tail end.
  * `Mutex` poisoning is modelled by a boolean per lock; `lock().unwrap()`
    on a poisoned mutex is a panic, while the sampler's
    `match system.lock() { Err(_) => continue }` transfers control to the
    top of the `loop`, past the trailing `thread::sleep`.
-/

namespace HardwareMonitor

/-- `HISTORY_CAPACITY` (hardware.rs line 27): number of retained samples. -/
def HISTORY_CAPACITY : Nat := 60

/-- `SYSTEM_INFO_INIT_INTERVAL` (hardware.rs line 22): sampling interval, seconds. -/
def SYSTEM_INFO_INIT_INTERVAL : Nat := 1

/-- Rust `f32::round` / `f64::round`: round half away from zero, modelled on ℚ. -/
def rustRound (x : ℚ) : ℤ :=
  if 0 ≤ x then ⌊x + 1 / 2⌋ else -⌊-x + 1 / 2⌋

/-- Rust float-to-integer `as` cast truncates toward zero (on finite values). -/
def truncQ (x : ℚ) : ℤ :=
  if 0 ≤ x then ⌊x⌋ else ⌈x⌉

/-- Saturating range clamp of Rust `as i32` on a finite float value. -/
def i32Saturate (n : ℤ) : ℤ :=
  max (-2147483648) (min 2147483647 n)

/-- History-ring push (hardware.rs lines 163-169 and 171-177): if the deque
already holds at least `HISTORY_CAPACITY` samples, `pop_front()` evicts the
oldest entry, then `push_back(sample)` appends at the tail. -/
def pushHistory (hist : List ℚ) (sample : ℚ) : List ℚ :=
  (if HISTORY_CAPACITY ≤ hist.length then hist.tail else hist) ++ [sample]

/-- The ring contents after the sampler performs a whole sequence of pushes,
starting from the empty deque the state is created with. -/
def ringAfter (samples : List ℚ) : List ℚ :=
  List.foldl pushHistory [] samples

/-- `get_cpu_usage_history` (hardware.rs lines 79-85): locks the cpu history,
then `history.iter().rev().take(seconds).cloned().collect()` — a
non-destructive snapshot of the most recent `seconds` samples, newest first. -/
def get_cpu_usage_history (history : List ℚ) (seconds : Nat) : List ℚ :=
  (history.reverse).take seconds

/-- `get_memory_usage_history` (hardware.rs lines 94-100): identical shape to
the cpu accessor, over the memory history deque. -/
def get_memory_usage_history (history : List ℚ) (seconds : Nat) : List ℚ :=
  (history.reverse).take seconds

/-- `get_gpu_usage_history` (hardware.rs lines 109-115): identical shape to
the cpu accessor, over the gpu history deque. -/
def get_gpu_usage_history (history : List ℚ) (seconds : Nat) : List ℚ :=
  (history.reverse).take seconds

/-- An IEEE f64 value as reachable inside `get_memory_usage`: an exact finite
value, NaN, or a signed infinity. Finite arithmetic is modelled exactly. -/
inductive F64 where
  | finite (q : ℚ)
  | nan
  | posInf
  | negInf
deriving DecidableEq

/-- IEEE f64 division. Finite quotients are modelled exactly; `0.0 / 0.0` is
NaN and `x / 0.0` for finite nonzero `x` is a signed infinity. (Cases with a
non-finite operand cannot arise from the embedded code, which divides two
values cast from `u64`; they are collapsed to NaN.) -/
def F64.div : F64 → F64 → F64
  | F64.finite a, F64.finite b =>
      if b = 0 then
        if a = 0 then F64.nan else if 0 < a then F64.posInf else F64.negInf
      else F64.finite (a / b)
  | _, _ => F64.nan

/-- IEEE f64 multiplication for the cases reachable in `get_memory_usage`
(second operand is the finite literal `100.0`): finite products are exact,
NaN propagates, and an infinity times a positive finite value keeps its sign. -/
def F64.mul : F64 → F64 → F64
  | F64.finite a, F64.finite b => F64.finite (a * b)
  | F64.nan, _ => F64.nan
  | _, F64.nan => F64.nan
  | F64.posInf, F64.finite b =>
      if b = 0 then F64.nan else if 0 < b then F64.posInf else F64.negInf
  | F64.finite a, F64.posInf =>
      if a = 0 then F64.nan else if 0 < a then F64.posInf else F64.negInf
  | F64.negInf, F64.finite b =>
      if b = 0 then F64.nan else if 0 < b then F64.negInf else F64.posInf
  | F64.finite a, F64.negInf =>
      if a = 0 then F64.nan else if 0 < a then F64.negInf else F64.posInf
  | F64.posInf, F64.posInf => F64.posInf
  | F64.posInf, F64.negInf => F64.negInf
  | F64.negInf, F64.posInf => F64.negInf
  | F64.negInf, F64.negInf => F64.posInf

/-- `f64::round`: rounds a finite value half away from zero; NaN and the
infinities are fixed points. -/
def F64.roundHalfAway : F64 → F64
  | F64.finite q => F64.finite ((rustRound q : ℤ) : ℚ)
  | x => x

/-- Rust `as i32` on an f64: truncates a finite value toward zero and
saturates to the i32 range; NaN maps to 0, ±infinity to the i32 extremes. -/
def F64.as_i32 : F64 → ℤ
  | F64.finite q => i32Saturate (truncQ q)
  | F64.nan => 0
  | F64.posInf => 2147483647
  | F64.negInf => -2147483648

/-- `get_memory_usage` (hardware.rs lines 52-58): reads the `u64` memory
counters, casts them to f64, and returns
`((used_memory / total_memory) * 100.0).round() as i32`. -/
def get_memory_usage (used_memory total_memory : ℕ) : ℤ :=
  ((((F64.finite (used_memory : ℚ)).div (F64.finite (total_memory : ℚ))).mul
      (F64.finite 100)).roundHalfAway).as_i32

/-- `get_cpu_usage` (hardware.rs lines 36-43): sums the per-core usage
percentages, divides by the core count, and returns `usage.round() as i32`
(the rounded value is integral, so the cast only clamps to the i32 range). -/
def get_cpu_usage (cpus : List ℚ) : ℤ :=
  let total_usage : ℚ := cpus.sum
  let usage : ℚ := total_usage / (cpus.length : ℚ)
  i32Saturate (rustRound usage)

/-- `get_gpu_usage` (hardware.rs lines 67-70): reads the shared `gpu_usage`
cell (an `f32`) and returns `*gpu_usage as i32` — a truncating, saturating
cast with no rounding step. -/
def get_gpu_usage (gpu_usage : ℚ) : ℤ :=
  i32Saturate (truncQ gpu_usage)

/-- The spec's description of the CPU sample: the mean of the per-core
utilization percentages. -/
def specMean (cpus : List ℚ) : ℚ :=
  cpus.sum / (cpus.length : ℚ)

/-- The host system snapshot as read by the sampler after
`refresh_cpu_all()` / `refresh_memory()`: per-core usage percentages and the
memory counters (u64 in the source). -/
structure SystemSnap where
  cpus : List ℚ
  used_memory : ℕ
  total_memory : ℕ
deriving DecidableEq

/-- The sampler-owned shared state: the three history deques and the gpu
current-value cell of `AppState` (hardware.rs lines 11-17). The `System`
snapshot is passed separately. -/
structure AppState where
  cpu_history : List ℚ
  memory_history : List ℚ
  gpu_history : List ℚ
  gpu_usage : ℚ
deriving DecidableEq

/-- The cpu sample computed by one sampler tick (hardware.rs lines 141-145):
`(total_usage / cpus.len()).round() as f32`, from the freshly refreshed
per-core counters. -/
def cpuTickSample (sys : SystemSnap) : ℚ :=
  ((rustRound (sys.cpus.sum / (sys.cpus.length : ℚ)) : ℤ) : ℚ)

/-- The memory sample computed by one sampler tick (hardware.rs lines
147-151): `(used / total * 100.0).round() as f32`. Modelled with exact
rational division (the degenerate `total_memory = 0` f64 special values are
modelled separately in `get_memory_usage`). -/
def memoryTickSample (sys : SystemSnap) : ℚ :=
  ((rustRound ((sys.used_memory : ℚ) / (sys.total_memory : ℚ) * 100) : ℤ) : ℚ)

/-- The successful-tick body of `initialize_system` (hardware.rs lines
138-177): after refreshing the snapshot, compute the cpu and memory samples
and push each onto its history ring. The GPU steps (lines 153-161 and
179-185) are commented out in the source, so the gpu cell and gpu history are
left untouched and the GPU sensor is never invoked. -/
def samplerTick (st : AppState) (sys : SystemSnap) : AppState :=
  { st with
    cpu_history := pushHistory st.cpu_history (cpuTickSample sys),
    memory_history := pushHistory st.memory_history (memoryTickSample sys) }

/-- Poison state of the locks touched by one sampler iteration. -/
structure LockState where
  system_poisoned : Bool
  cpu_history_poisoned : Bool
  memory_history_poisoned : Bool
deriving DecidableEq

/-- Outcome of one iteration of the sampler `loop` (hardware.rs lines
131-189). `continued` is the `Err(_) => continue` arm on the system lock
(line 135): control jumps to the top of the `loop`, so the trailing
`thread::sleep` (line 188) is NOT executed. `panicked` is an `.unwrap()`
on a poisoned history lock (line 164 or 172): the thread dies. `slept` means
the body completed and `thread::sleep` ran. -/
inductive LoopStep where
  | continued (st : AppState)
  | panicked
  | slept (st : AppState)
deriving DecidableEq

/-- One iteration of the sampler loop (hardware.rs lines 131-189), tracking
which locks were poisoned. The order of lock acquisitions follows the
source: system first (line 133), then cpu history (line 164), then memory
history (line 172); the sleep (line 188) is only reached on full success. -/
def loopIter (locks : LockState) (st : AppState) (sys : SystemSnap) : LoopStep :=
  if locks.system_poisoned then
    LoopStep.continued st
  else if locks.cpu_history_poisoned then
    LoopStep.panicked
  else if locks.memory_history_poisoned then
    LoopStep.panicked
  else
    LoopStep.slept (samplerTick st sys)

/-- Whether the fixed-interval `thread::sleep` (hardware.rs line 188) runs
before the next lock-acquisition attempt, given the iteration's outcome. -/
def sleepsBeforeNextAttempt : LoopStep → Bool
  | LoopStep.slept _ => true
  | _ => false

/-- A call of the `get_cpu_usage` accessor including its
`state.system.lock().unwrap()` (hardware.rs line 37): `none` models the
unwrap panic propagating to the caller when the lock is poisoned. -/
def get_cpu_usage_call (system_poisoned : Bool) (cpus : List ℚ) : Option ℤ :=
  if system_poisoned then none else some (get_cpu_usage cpus)

/-- The nvapi status values used by the inner GPU sensor; the source only
ever constructs `nvapi::Status::Error`. -/
inductive NvStatus where
  | err
deriving DecidableEq

/-- One enumerated physical GPU, reduced to what the inner sensor reads:
the outcome of `gpu.usages()` projected onto the Graphics utilization
domain. `Except.error` is a failed `usages()` call; `Except.ok none` is a
successful call whose map has no Graphics entry; `Except.ok (some p)` is a
Graphics utilization of `p` percent (nvapi `Percentage`, a u32). -/
structure PhysicalGpu where
  graphics_utilization : Except NvStatus (Option ℕ)

/-- The accumulation loop of the inner GPU sensor (hardware.rs lines
211-225): iterate over the devices in order, return the first `usages()`
error, otherwise add `gpu_usage.0 as f32 / 100.0` and count each device
reporting a Graphics domain. -/
def collectGpuUsage : List PhysicalGpu → ℚ → ℕ → Except NvStatus (ℚ × ℕ)
  | [], total, count => Except.ok (total, count)
  | g :: rest, total, count =>
      match g.graphics_utilization with
      | Except.error e => Except.error e
      | Except.ok none => collectGpuUsage rest total count
      | Except.ok (some p) => collectGpuUsage rest (total + (p : ℚ) / 100) (count + 1)

/-- The inner `get_gpu_usage` sensor nested in `initialize_system`
(hardware.rs lines 195-241), as a function of the enumerated device list:
an empty enumeration returns `Err(Status::Error)` (line 205); a `usages()`
failure is propagated (line 216); if no device reported a Graphics domain it
returns `Err(Status::Error)` (line 233); otherwise the mean of the collected
values. This function is dead code: the sampler's call to it is commented
out (lines 153-156). -/
def get_gpu_usage_inner (gpus : List PhysicalGpu) : Except NvStatus ℚ :=
  if gpus.isEmpty then Except.error NvStatus.err
  else
    match collectGpuUsage gpus 0 0 with
    | Except.error e => Except.error e
    | Except.ok (total, count) =>
        if count = 0 then Except.error NvStatus.err
        else Except.ok (total / (count : ℚ))

/-- Modelled from the spec: the construction of `AppState` (performed by the
Tauri setup outside the provided sources) starts every history deque empty
and the gpu current-value cell at the neutral default 0. -/
def initialAppState : AppState :=
  { cpu_history := [], memory_history := [], gpu_history := [], gpu_usage := 0 }

/-! ## Theorems -/

/-- Truncation toward zero is the identity on integral rationals. -/
theorem truncQ_intCast (n : ℤ) : truncQ ((n : ℤ) : ℚ) = n := by
  unfold truncQ
  by_cases h : (0 : ℚ) ≤ (n : ℚ)
  · simp [h]
  · simp [h]

/-- Round-half-away-from-zero is nonnegative on nonnegative inputs. -/
theorem rustRound_nonneg (q : ℚ) (h : 0 ≤ q) : 0 ≤ rustRound q := by
  unfold rustRound
  simp only [h, if_true]
  exact Int.le_floor.mpr (by push_cast; linarith)

/-- Round-half-away-from-zero stays at most 100 on inputs at most 100. -/
theorem rustRound_le_hundred (q : ℚ) (h : q ≤ 100) : rustRound q ≤ 100 := by
  unfold rustRound
  by_cases h0 : 0 ≤ q
  · simp only [h0, if_true]
    have h2 : (⌊q + 1 / 2⌋ : ℤ) < 101 := by
      apply Int.floor_lt.mpr
      push_cast
      linarith
    omega
  · simp only [h0, if_false]
    have h2 : (0 : ℤ) ≤ ⌊-q + 1 / 2⌋ := by
      apply Int.le_floor.mpr
      push_cast
      linarith
    omega

/-- The i32 saturation clamp is the identity on percentage-range values. -/
theorem i32Saturate_eq_self (n : ℤ) (h0 : 0 ≤ n) (h1 : n ≤ 100) :
    i32Saturate n = n := by
  unfold i32Saturate
  omega

/-- Length of the ring after a push never exceeds the capacity. -/
theorem pushHistory_length_le (hist : List ℚ) (sample : ℚ)
    (h : hist.length ≤ HISTORY_CAPACITY) :
    (pushHistory hist sample).length ≤ HISTORY_CAPACITY := by
  unfold pushHistory
  by_cases hc : HISTORY_CAPACITY ≤ hist.length
  · have heq : hist.length = HISTORY_CAPACITY := le_antisymm h hc
    have hpos : 0 < hist.length := by
      rw [heq]; exact Nat.succ_le_iff.mp (by norm_num [HISTORY_CAPACITY])
    simp only [hc, if_true, List.length_append, List.length_tail,
      List.length_cons, List.length_nil]
    omega
  · simp only [hc, if_false, List.length_append, List.length_cons,
      List.length_nil]
    omega

/-- Generalized description of a push sequence: starting from any ring within
capacity, folding pushes keeps exactly the most recent `HISTORY_CAPACITY`
samples of `start ++ l`, in insertion (oldest-first) order. -/
theorem foldl_pushHistory_eq (l : List ℚ) :
    ∀ start : List ℚ, start.length ≤ HISTORY_CAPACITY →
      List.foldl pushHistory start l =
        (start ++ l).drop (start.length + l.length - HISTORY_CAPACITY) := by
  induction l with
  | nil =>
    intro start h
    simp only [List.foldl_nil, List.append_nil, List.length_nil, Nat.add_zero]
    rw [Nat.sub_eq_zero_of_le h, List.drop_zero]
  | cons s l ih =>
    intro start h
    rw [List.foldl_cons]
    by_cases hc : HISTORY_CAPACITY ≤ start.length
    · have heq : start.length = HISTORY_CAPACITY := le_antisymm h hc
      have hpos : 0 < start.length := by
        rw [heq]; exact Nat.succ_le_iff.mp (by norm_num [HISTORY_CAPACITY])
      obtain ⟨a, t, rfl⟩ : ∃ a t, start = a :: t := by
        cases start with
        | nil => simp at hpos
        | cons a t => exact ⟨a, t, rfl⟩
      have hpush : pushHistory (a :: t) s = t ++ [s] := by
        unfold pushHistory
        simp only [hc, if_true, List.tail_cons]
      rw [hpush, ih (t ++ [s]) (by
        simp only [List.length_append, List.length_cons, List.length_nil] at hc h ⊢
        omega)]
      simp only [List.length_append, List.length_cons, List.length_nil,
        List.append_assoc, List.singleton_append, List.cons_append]
      have hlen : t.length + 1 = HISTORY_CAPACITY := by
        simpa using heq
      have h1 : t.length + (0 + 1) + l.length - HISTORY_CAPACITY = l.length := by
        omega
      have h2 : t.length + 1 + (l.length + 1) - HISTORY_CAPACITY = l.length + 1 := by
        omega
      rw [h1, h2, List.drop_succ_cons]
      simp
    · have hpush : pushHistory start s = start ++ [s] := by
        unfold pushHistory
        simp only [hc, if_false]
      rw [hpush, ih (start ++ [s]) (by
        simp only [List.length_append, List.length_cons, List.length_nil]
        omega)]
      simp only [List.length_append, List.length_cons, List.length_nil,
        List.append_assoc, List.singleton_append]
      congr 1
      omega

/-- Ring contents after any push sequence from the empty deque: the most
recent `min (length, HISTORY_CAPACITY)` samples, oldest first. -/
theorem ringAfter_eq (l : List ℚ) :
    ringAfter l = l.drop (l.length - HISTORY_CAPACITY) := by
  have h := foldl_pushHistory_eq l [] (by simp)
  simpa [ringAfter] using h

/-- Claim C1: for every sequence of pushes performed by the sampler loop, the
ring length never exceeds `HISTORY_CAPACITY` (60) after any push; once the
ring is at capacity a push evicts exactly the single oldest (front) entry
before appending the new sample at the tail; and the retained contents are
exactly the most recent pushes in oldest-first insertion order. -/
theorem ring_capacity_invariant :
    (∀ (hist : List ℚ) (s : ℚ), hist.length ≤ HISTORY_CAPACITY →
        (pushHistory hist s).length ≤ HISTORY_CAPACITY)
    ∧ (∀ (hist : List ℚ) (s : ℚ), hist.length = HISTORY_CAPACITY →
        pushHistory hist s = hist.tail ++ [s])
    ∧ (∀ l : List ℚ, ringAfter l = l.drop (l.length - HISTORY_CAPACITY)) := by
  refine ⟨pushHistory_length_le, ?_, ringAfter_eq⟩
  intro hist s h
  unfold pushHistory
  simp [h]

/-- Concrete instantiation of the ring invariant: a push onto a 60-sample
ring keeps length 60 and evicts the front entry; a short push sequence is
retained in full, in push order. -/
theorem ring_capacity_invariant_witness :
    (pushHistory (List.replicate 60 (1 : ℚ)) 7).length ≤ HISTORY_CAPACITY
    ∧ pushHistory (List.replicate 60 (1 : ℚ)) 7 =
        (List.replicate 60 (1 : ℚ)).tail ++ [7]
    ∧ ringAfter [10, 20, 30] = [10, 20, 30] := by
  refine ⟨ring_capacity_invariant.1 (List.replicate 60 1) 7 (by simp [HISTORY_CAPACITY]),
    ring_capacity_invariant.2.1 (List.replicate 60 1) 7 (by simp [HISTORY_CAPACITY]),
    ?_⟩
  have h := ring_capacity_invariant.2.2 [10, 20, 30]
  simpa [HISTORY_CAPACITY] using h

/-- Claim C3: for every push sequence and every requested count, each history
accessor returns the retained samples newest first — a prefix of the reverse
of push order — and the three accessors share this behavior. The accessors
are pure functions of the ring snapshot, so the ring is not mutated. -/
theorem history_newest_first :
    (∀ (l : List ℚ) (seconds : Nat),
        get_cpu_usage_history (ringAfter l) seconds
          = l.reverse.take (min seconds (min HISTORY_CAPACITY l.length)))
    ∧ (∀ (history : List ℚ) (seconds : Nat),
        get_memory_usage_history history seconds
          = get_cpu_usage_history history seconds)
    ∧ (∀ (history : List ℚ) (seconds : Nat),
        get_gpu_usage_history history seconds
          = get_cpu_usage_history history seconds) := by
  refine ⟨?_, fun _ _ => rfl, fun _ _ => rfl⟩
  intro l seconds
  unfold get_cpu_usage_history
  rw [ringAfter_eq, List.reverse_drop, List.take_take]
  congr 1
  omega

/-- Claim C4: each history accessor returns exactly
`min seconds (currently-held-count)` samples: empty before any push, exactly
`k` entries after `k < capacity` pushes whenever `seconds ≥ k`, and never any
padding or error when more is requested than is retained. -/
theorem history_returns_min_count :
    (∀ (history : List ℚ) (seconds : Nat),
        (get_cpu_usage_history history seconds).length = min seconds history.length)
    ∧ (∀ seconds : Nat, get_cpu_usage_history [] seconds = [])
    ∧ (∀ (l : List ℚ) (seconds : Nat),
        l.length < HISTORY_CAPACITY → l.length ≤ seconds →
          (get_cpu_usage_history (ringAfter l) seconds).length = l.length) := by
  refine ⟨?_, ?_, ?_⟩
  · intro history seconds
    simp [get_cpu_usage_history]
  · intro seconds
    simp [get_cpu_usage_history]
  · intro l seconds hcap hsec
    have hring : ringAfter l = l := by
      rw [ringAfter_eq, Nat.sub_eq_zero_of_le (Nat.le_of_lt hcap), List.drop_zero]
    rw [hring]
    simp only [get_cpu_usage_history, List.length_take, List.length_reverse]
    omega

/-- Concrete instantiation of the under-filled history boundary: two pushes,
five seconds requested, exactly two entries returned. -/
theorem history_returns_min_count_witness :
    (get_cpu_usage_history (ringAfter [(1 : ℚ), 2]) 5).length = 2 := by
  exact history_returns_min_count.2.2 [1, 2] 5 (by norm_num [HISTORY_CAPACITY])
    (by norm_num)

/-- Claim C2 counterexample: on a tick where the host-snapshot lock is
poisoned, the iteration takes the `Err(_) => continue` arm; the tick's update
is skipped, but the fixed-interval sleep does NOT occur before the next
lock-acquisition attempt, contrary to the claim. -/
theorem lock_failure_no_sleep_counterexample :
    loopIter ⟨true, false, false⟩ initialAppState ⟨[50], 1, 2⟩
        = LoopStep.continued initialAppState
    ∧ sleepsBeforeNextAttempt
        (loopIter ⟨true, false, false⟩ initialAppState ⟨[50], 1, 2⟩) = false := by
  exact ⟨rfl, rfl⟩

/-- Claim C2 (amended): a lock-acquisition failure on the host snapshot skips
the tick's update entirely, but the `continue` statement also jumps past the
fixed-interval `thread::sleep`, so the lock is retried immediately with no
sleep before the next acquisition attempt. -/
theorem lock_failure_skips_tick_without_sleep :
    ∀ (b1 b2 : Bool) (st : AppState) (sys : SystemSnap),
      loopIter ⟨true, b1, b2⟩ st sys = LoopStep.continued st
      ∧ sleepsBeforeNextAttempt (loopIter ⟨true, b1, b2⟩ st sys) = false := by
  intro b1 b2 st sys
  exact ⟨rfl, rfl⟩

/-- Claim C5: `get_memory_usage` returns the used/total ratio times 100,
rounded half away from zero, for any snapshot with a nonzero total (the
floating-point computation is exact on the claim's concrete scenario). -/
theorem memory_usage_rounded_ratio (used total : ℕ) (h : 0 < total)
    (hle : used ≤ total) :
    get_memory_usage used total = rustRound ((used : ℚ) / (total : ℚ) * 100) := by
  have ht0 : (0 : ℚ) < (total : ℚ) := by exact_mod_cast h
  have ht : ((total : ℚ)) ≠ 0 := ne_of_gt ht0
  have hq0 : 0 ≤ (used : ℚ) / (total : ℚ) * 100 := by positivity
  have hq1 : (used : ℚ) / (total : ℚ) * 100 ≤ 100 := by
    have hr : (used : ℚ) / (total : ℚ) ≤ 1 := by
      rw [div_le_one ht0]
      exact_mod_cast hle
    linarith
  unfold get_memory_usage F64.div F64.mul F64.roundHalfAway F64.as_i32
  simp only [ht, if_false]
  rw [truncQ_intCast]
  exact i32Saturate_eq_self _ (rustRound_nonneg _ hq0) (rustRound_le_hundred _ hq1)

/-- Concrete instantiation of the C5 scenario: used = 5,000,000,000 bytes and
total = 10,000,000,000 bytes yield exactly 50. -/
theorem memory_usage_rounded_ratio_witness :
    get_memory_usage 5000000000 10000000000 = 50 := by
  have h := memory_usage_rounded_ratio 5000000000 10000000000 (by norm_num)
    (by norm_num)
  rw [h]
  norm_num [rustRound]

/-- Claim C6: both the `get_cpu_usage` accessor and the value each sampler
tick pushes equal the per-core utilization mean, rounded half away from zero;
the tick computes it from the snapshot as refreshed at the start of that tick
(`refresh_cpu_all` precedes the averaging in the source). -/
theorem cpu_usage_is_rounded_mean :
    (∀ cpus : List ℚ, (∀ x ∈ cpus, 0 ≤ x ∧ x ≤ 100) →
        get_cpu_usage cpus = rustRound (specMean cpus))
    ∧ (∀ (st : AppState) (sys : SystemSnap),
        (samplerTick st sys).cpu_history
          = pushHistory st.cpu_history ((rustRound (specMean sys.cpus) : ℤ) : ℚ)) := by
  constructor
  · intro cpus hb
    have hsum0 : 0 ≤ cpus.sum := List.sum_nonneg (fun x hx => (hb x hx).1)
    have hmean0 : 0 ≤ specMean cpus := by
      unfold specMean
      positivity
    have hmean1 : specMean cpus ≤ 100 := by
      unfold specMean
      rcases List.eq_nil_or_concat cpus with hnil | _
      · subst hnil
        norm_num
      · have hlen : (0 : ℚ) < (cpus.length : ℚ) := by
          have : cpus ≠ [] := by
            rintro rfl
            simp_all
          have := List.length_pos.mpr this
          exact_mod_cast this
        rw [div_le_iff₀ hlen]
        have hsum : cpus.sum ≤ cpus.length • (100 : ℚ) :=
          List.sum_le_card_nsmul cpus 100 (fun x hx => (hb x hx).2)
        simpa [nsmul_eq_mul, mul_comm] using hsum
    unfold get_cpu_usage
    exact i32Saturate_eq_self _ (rustRound_nonneg _ hmean0)
      (rustRound_le_hundred _ hmean1)
  · intro st sys
    rfl

/-- Concrete instantiation of the CPU mean: cores at 40% and 60% yield 50. -/
theorem cpu_usage_is_rounded_mean_witness :
    get_cpu_usage [(40 : ℚ), 60] = 50 := by
  have h := cpu_usage_is_rounded_mean.1 [(40 : ℚ), 60] (by
    intro x hx
    simp only [List.mem_cons, List.not_mem_nil, or_false] at hx
    rcases hx with rfl | rfl <;> norm_num)
  rw [h]
  norm_num [specMean, rustRound]

/-- Claim C7: an empty GPU enumeration — and likewise devices with no usable
utilization domain — makes the inner sensor return a non-panicking soft
failure (`Err`); the public `get_gpu_usage` exposes the neutral default 0
from the initial cell (the sampler's GPU call is commented out, so the cell
is never overwritten), and every tick's CPU and Memory pushes complete
independently of any GPU sensor outcome. -/
theorem gpu_absence_is_soft_failure :
    (get_gpu_usage_inner [] = Except.error NvStatus.err)
    ∧ (get_gpu_usage_inner [⟨Except.ok none⟩] = Except.error NvStatus.err)
    ∧ (get_gpu_usage initialAppState.gpu_usage = 0)
    ∧ (∀ (st : AppState) (sys : SystemSnap),
        (samplerTick st sys).gpu_usage = st.gpu_usage
        ∧ (samplerTick st sys).cpu_history
            = pushHistory st.cpu_history (cpuTickSample sys)
        ∧ (samplerTick st sys).memory_history
            = pushHistory st.memory_history (memoryTickSample sys)) := by
  refine ⟨rfl, rfl, ?_, fun st sys => ⟨rfl, rfl, rfl⟩⟩
  norm_num [get_gpu_usage, initialAppState, truncQ, i32Saturate]

/-- Claim C8 counterexample: with the host-snapshot lock healthy but the cpu
history lock poisoned, the sampler iteration panics (the `.unwrap()` at
hardware.rs line 164) instead of skipping that metric's update. -/
theorem poisoned_ring_lock_panics_counterexample :
    loopIter ⟨false, true, false⟩ initialAppState ⟨[50], 1, 2⟩
      = LoopStep.panicked := by
  rfl

/-- Claim C8 (amended): only the host-snapshot lock failure is handled by
skipping; a poisoned cpu- or memory-history lock makes the sampler's
`.unwrap()` panic, crashing the loop thread, and the accessors likewise
`.unwrap()` their locks, so a poisoned lock panics into the caller instead of
being contained. -/
theorem poisoned_metric_lock_panics :
    (∀ (b : Bool) (st : AppState) (sys : SystemSnap),
        loopIter ⟨false, true, b⟩ st sys = LoopStep.panicked)
    ∧ (∀ (st : AppState) (sys : SystemSnap),
        loopIter ⟨false, false, true⟩ st sys = LoopStep.panicked)
    ∧ (∀ cpus : List ℚ, get_cpu_usage_call true cpus = none) := by
  exact ⟨fun b st sys => rfl, fun st sys => rfl, fun cpus => rfl⟩

/-- Claim C9 counterexample: a stored GPU sample of 49.6 is exposed by
`get_gpu_usage` as 49 — the `as i32` cast truncates — while
round-half-away-from-zero would give 50, contrary to the claim. -/
theorem gpu_usage_truncates_counterexample :
    get_gpu_usage (248 / 5) = 49 ∧ rustRound (248 / 5) = 50 := by
  constructor
  · norm_num [get_gpu_usage, truncQ, i32Saturate]
  · norm_num [rustRound]

/-- Claim C9 (amended): `get_gpu_usage` exposes the stored GPU sample
truncated toward zero (the `as i32` cast), not rounded: any stored value in
the percentage range is exposed as its floor. -/
theorem gpu_usage_truncates (q : ℚ) (h0 : 0 ≤ q) (h1 : q ≤ 100) :
    get_gpu_usage q = ⌊q⌋ := by
  unfold get_gpu_usage truncQ
  simp only [h0, if_true]
  have hf0 : (0 : ℤ) ≤ ⌊q⌋ := Int.floor_nonneg.mpr h0
  have hf1 : ⌊q⌋ ≤ 100 := by
    have := Int.floor_le_floor h1
    simpa using this
  exact i32Saturate_eq_self _ hf0 hf1

/-- Concrete instantiation of the truncating GPU read: 37.5 is exposed as 37. -/
theorem gpu_usage_truncates_witness :
    get_gpu_usage (150 / 4 : ℚ) = 37 := by
  have h := gpu_usage_truncates (150 / 4) (by norm_num) (by norm_num)
  rw [h]
  norm_num [Int.floor_eq_iff]

/-- Claim C10: with a zero total, `get_memory_usage` raises no error at the
interface: `0.0 / 0.0` is NaN, which the saturating `as i32` cast maps to 0,
and `used / 0.0` with positive `used` is +infinity, which saturates to
`i32::MAX` = 2147483647. -/
theorem memory_usage_total_zero :
    get_memory_usage 0 0 = 0
    ∧ (∀ used : ℕ, 0 < used → get_memory_usage used 0 = 2147483647) := by
  constructor
  · norm_num [get_memory_usage, F64.div, F64.mul, F64.roundHalfAway, F64.as_i32]
  · intro used h
    have h0 : ((used : ℚ)) ≠ 0 := by
      exact_mod_cast Nat.pos_iff_ne_zero.mp h
    have h1 : (0 : ℚ) < (used : ℚ) := by exact_mod_cast h
    norm_num [get_memory_usage, F64.div, F64.mul, F64.roundHalfAway, F64.as_i32,
      h0, h1]

/-- Concrete instantiation of the zero-total division: one used byte over a
zero total saturates to `i32::MAX`. -/
theorem memory_usage_total_zero_witness :
    get_memory_usage 1 0 = 2147483647 := by
  exact memory_usage_total_zero.2 1 (by norm_num)

end HardwareMonitor
